import Mathlib

/-!
Shallow embedding of the backtesting core of the algo_trading_platform
repository: BacktestEngine (src/application/backtesting.py) and the
strategy variants (src/domain/strategy.py), translated function by
function from the Python source.

Modelling conventions:
* Python floats are modelled as exact rationals.  The float value NaN,
  produced by pandas rolling windows before they fill, is modelled as
  `none : Option Rat`; every ordered comparison against it is false, as
  for NaN.  The timestamp and close_price columns of the input frame are
  exact numbers (per the data model of the spec, observations carry real
  prices), so only derived indicator columns carry possible NaN.
* Python exceptions are modelled by `Except PyErr`.
* pandas DataFrames are modelled by the base observations plus the named
  computed columns; column assignment replaces an existing column in
  place, otherwise appends it, exactly as pandas does.  Since the Python
  engine and the strategies assign columns on the very frame object the
  caller passed in, the frame value returned by the embedded
  `runBacktest` is the state of the caller-owned object after the call.
* Division of two rationals where the Python/numpy source would produce
  inf (division by zero inside pandas) is rational junk; no theorem below
  depends on such a cell.  Where plain Python float division by zero
  raises ZeroDivisionError, the embedding raises `PyErr.zeroDivision`.
-/

/-- A trading signal as returned by `generate_signal`.  The source uses
the strings BUY/SELL/HOLD; `RSIStrategy.generate_signal` returns the
Python value None, modelled by the extra constructor `NONE`. -/
inductive PySignal
  | BUY
  | SELL
  | HOLD
  | NONE
deriving DecidableEq

/-- The `action` argument of `execute_trade`. -/
inductive Act
  | BUY
  | SELL
deriving DecidableEq

/-- Python exceptions the embedded code can raise.  `invalidPrice` stands
for the InvalidPriceError named by the spec; no code path produces it. -/
inductive PyErr
  | zeroDivision
  | indexError
  | nameError
  | valueError
  | invalidPrice
deriving DecidableEq

deriving instance DecidableEq for Except

/-- One entry of `self.trades`: the tuple (date, price, side, units). -/
structure Trade where
  date : ℚ
  price : ℚ
  side : Act
  units : ℤ
deriving DecidableEq

/-- The mutable ledger fields of BacktestEngine: `self.cash`,
`self.position`, `self.trades`. -/
structure Ledger where
  cash : ℚ
  position : ℤ
  trades : List Trade
deriving DecidableEq

/-- One observation of the input data: the timestamp and close_price
columns that the engine reads from each row. -/
structure Obs where
  timestamp : ℚ
  close_price : ℚ
deriving DecidableEq

/-- A pandas DataFrame: base observations plus named, possibly-NaN
computed columns in insertion order. -/
structure DF where
  obs : List Obs
  cols : List (String × List (Option ℚ))
deriving DecidableEq

/-- Column assignment `df[name] = values`: pandas replaces an existing
column in place, otherwise appends it at the end. -/
def setColFn : List (String × List (Option ℚ)) → String → List (Option ℚ) →
    List (String × List (Option ℚ))
  | [], n, v => [(n, v)]
  | c :: rest, n, v => if c.1 = n then (n, v) :: rest else c :: setColFn rest n v

def DF.setCol (df : DF) (n : String) (v : List (Option ℚ)) : DF :=
  ⟨df.obs, setColFn df.cols n v⟩

/-- Read a whole column; `none` when the frame has no such column. -/
def DF.col (df : DF) (n : String) : Option (List (Option ℚ)) :=
  (df.cols.find? fun c => c.1 == n).map (·.2)

/-- The close_price column as a series. -/
def DF.closes (df : DF) : List ℚ := df.obs.map (·.close_price)

/-- A row of the frame as handed to `generate_signal` (a pandas Series):
the base observation plus the computed cells of that row. -/
structure Row where
  obs : Obs
  fields : List (String × Option ℚ)
deriving DecidableEq

/-- Series lookup `row[name]` on computed columns. -/
def Row.get (r : Row) (n : String) : Option ℚ :=
  match r.fields.find? fun c => c.1 == n with
  | some c => c.2
  | none => none

/-- `data.iterrows()`: the rows in chronological order. -/
def DF.iterrows (df : DF) : List Row :=
  (List.range df.obs.length).map fun i =>
    ⟨df.obs.getD i ⟨0, 0⟩, df.cols.map fun c => (c.1, c.2.getD i none)⟩

/-- Comparison of a possibly-NaN float with a possibly-NaN float: any
comparison involving NaN is false. -/
def optGT : Option ℚ → Option ℚ → Bool
  | some x, some y => decide (y < x)
  | _, _ => false

def optLT : Option ℚ → Option ℚ → Bool
  | some x, some y => decide (x < y)
  | _, _ => false

def optGTc (a : Option ℚ) (b : ℚ) : Bool := optGT a (some b)

def optLTc (a : Option ℚ) (b : ℚ) : Bool := optLT a (some b)

/-- Python `int(...)` applied to an exact ratio: truncation toward zero. -/
def pyTrunc (q : ℚ) : ℤ := q.num.tdiv q.den

/-- The body of `execute_trade` once `units` is known (backtesting.py
lines 30-39): the cost formula and the two guarded ledger updates; when
neither guard holds the ledger is left unchanged. -/
def executeTradeCore (ftc ptc : ℚ) (L : Ledger) (date price : ℚ) (act : Act)
    (u : ℤ) : Ledger :=
  let cost : ℚ :=
    if act = Act.BUY then u * price * (1 + ptc) + ftc else u * price * (1 - ptc) - ftc
  if act = Act.BUY ∧ cost ≤ L.cash then
    ⟨L.cash - cost, L.position + u, L.trades ++ [⟨date, price, Act.BUY, u⟩]⟩
  else if act = Act.SELL ∧ u ≤ L.position then
    ⟨L.cash + cost, L.position - u, L.trades ++ [⟨date, price, Act.SELL, u⟩]⟩
  else L

/-- `BacktestEngine.execute_trade` (backtesting.py lines 25-39).
`units = none` is Python `units=None`: invest the full cash balance,
`int(self.cash / price)`; Python raises ZeroDivisionError there when
`price` is zero. -/
def executeTrade (ftc ptc : ℚ) (L : Ledger) (date price : ℚ) (act : Act)
    (units : Option ℤ) : Except PyErr Ledger :=
  match units with
  | none =>
    if price = 0 then .error .zeroDivision
    else .ok (executeTradeCore ftc ptc L date price act (pyTrunc (L.cash / price)))
  | some u => .ok (executeTradeCore ftc ptc L date price act u)

/-- A trading strategy instance: the two operations the engine invokes. -/
structure Strat where
  computeIndicators : DF → DF
  generateSignal : Row → PySignal

/-- The chronological loop of `run_backtest` (backtesting.py lines
48-59).  Besides the final ledger it returns the ledger after every row;
the per-step `Position Size` and net-wealth series are read off it. -/
def runLoop (sig : Row → PySignal) (ftc ptc : ℚ) :
    List Row → Ledger → Except PyErr (Ledger × List Ledger)
  | [], L => .ok (L, [])
  | r :: rs, L =>
    let step : Except PyErr Ledger :=
      match sig r with
      | .BUY => executeTrade ftc ptc L r.obs.timestamp r.obs.close_price Act.BUY none
      | .SELL => executeTrade ftc ptc L r.obs.timestamp r.obs.close_price Act.SELL none
      | _ => .ok L
    match step with
    | .error e => .error e
    | .ok L₁ =>
      match runLoop sig ftc ptc rs L₁ with
      | .error e => .error e
      | .ok (Lf, tr) => .ok (Lf, L₁ :: tr)

/-- pandas `Series.cummax()`. -/
def cummax : List ℚ → List ℚ
  | [] => []
  | x :: xs => x :: (cummax xs).map fun y => max x y

/-- The series `portfolio_values / portfolio_values.cummax() - 1`. -/
def drawdowns (vs : List ℚ) : List ℚ :=
  List.zipWith (fun v m => v / m - 1) vs (cummax vs)

/-- `compute_max_drawdown` (backtesting.py lines 91-93); `none` is the
NaN that pandas `min` returns on an empty series. -/
def computeMaxDrawdown (vs : List ℚ) : Option ℚ :=
  (drawdowns vs).min?

/-- The entries of the `self.results` dict that the claims inspect.  The
Sharpe and Sortino ratios need real square roots, no claim mentions
them, and they influence nothing else, so they are left out; the
`Position Size` series and the optional `Stop Loss Price` series live in
the returned frame as columns.  `netWealth` is the series stored under
the net_wealth key. -/
structure Results where
  finalBalance : ℚ
  finalNetWealth : ℚ
  performancePct : ℚ
  totalTrades : ℕ
  maxDrawdown : Option ℚ
  netWealth : List ℚ
deriving DecidableEq

/-- The observable effect of `run_backtest`: the returned results dict,
the state of the caller-owned DataFrame object (mutated in place via
`compute_indicators` and the column writes of the engine), and the
ledger fields of the engine after the run. -/
structure RunOut where
  results : Results
  data : DF
  ledger : Ledger
deriving DecidableEq

def keyPositionSize : String := "Position Size"

def keyNetWealth : String := "net_wealth"

/-- Lines 44-45 of `run_backtest`: the frame after the strategy computed
its indicators into it and the engine initialised the `Position Size`
column — the frame the loop iterates. -/
def dataPrepared (strat : Strat) (data : DF) : DF :=
  (strat.computeIndicators data).setCol keyPositionSize
    (List.replicate (strat.computeIndicators data).obs.length (some 0))

/-- The liquidation of lines 61-63: close out a positive position with a
SELL of exactly the held quantity at the price of the last iterated row.
The loop variables `date, price` of the last iteration are reused there;
were the branch reached with no iteration run, Python would raise
NameError (unreachable: the position starts at 0). -/
def closeOut (ftc ptc : ℚ) (rows : List Row) (L₁ : Ledger) : Except PyErr Ledger :=
  if 0 < L₁.position then
    match rows.getLast? with
    | some r =>
      executeTrade ftc ptc L₁ r.obs.timestamp r.obs.close_price Act.SELL (some L₁.position)
    | none => .error .nameError
  else .ok L₁

/-- The per-step net wealth samples of line 59: `self.cash +
self.position * price` right after the trade of each row. -/
def portfolioValues (tr : List Ledger) (rows : List Row) : List ℚ :=
  List.zipWith (fun (L : Ledger) (r : Row) => L.cash + (L.position : ℚ) * r.obs.close_price)
    tr rows

/-- Lines 61-86 of `run_backtest`, after the loop produced the final
ledger `L₁` and the per-step ledgers `tr` over the prepared frame
`data2`.  Python builds the results dict in source order, so on an empty
series the `iloc[-1]` lookup raises IndexError before anything is
returned, and a zero initial cash raises ZeroDivisionError in the
performance entry.  The step-returns series of line 67 feeds only the
omitted Sharpe/Sortino entries. -/
def finishRun (cash0 ftc ptc : ℚ) (data2 : DF) (L₁ : Ledger) (tr : List Ledger) :
    Except PyErr RunOut :=
  match closeOut ftc ptc data2.iterrows L₁ with
  | .error e => .error e
  | .ok L₂ =>
    match (portfolioValues tr data2.iterrows).getLast? with
    | none => .error .indexError
    | some fnw =>
      if cash0 = 0 then .error .zeroDivision
      else
        .ok ⟨⟨L₂.cash, fnw, (fnw - cash0) / cash0 * 100, L₂.trades.length,
              computeMaxDrawdown (portfolioValues tr data2.iterrows),
              portfolioValues tr data2.iterrows⟩,
             (data2.setCol keyPositionSize (tr.map fun L => some (L.position : ℚ))).setCol
               keyNetWealth ((portfolioValues tr data2.iterrows).map some),
             L₂⟩

/-- `BacktestEngine.run_backtest` (backtesting.py lines 41-86), for an
engine freshly constructed with `initial_cash = cash0`. -/
def runBacktest (strat : Strat) (cash0 ftc ptc : ℚ) (data : DF) :
    Except PyErr RunOut :=
  match runLoop strat.generateSignal ftc ptc (dataPrepared strat data).iterrows
      ⟨cash0, 0, []⟩ with
  | .error e => .error e
  | .ok (L₁, tr) => finishRun cash0 ftc ptc (dataPrepared strat data) L₁ tr

/-- pandas `Series.rolling(window=w).mean()`: NaN until the window is
filled.  The strategies construct windows of at least 1 (pandas rejects
a window of 0 with an error, which no claim exercises). -/
def rollingMean (w : ℕ) (xs : List ℚ) : List (Option ℚ) :=
  (List.range xs.length).map fun i =>
    if i + 1 < w then none
    else some ((((xs.drop (i + 1 - w)).take w).sum) / (w : ℚ))

/-- pandas `Series.pct_change(n)`. -/
def pctChange (n : ℕ) (xs : List ℚ) : List (Option ℚ) :=
  (List.range xs.length).map fun i =>
    if i < n then none else some (xs.getD i 0 / xs.getD (i - n) 0 - 1)

/-- pandas `Series.diff()`. -/
def diffO (xs : List ℚ) : List (Option ℚ) :=
  (List.range xs.length).map fun i =>
    if i = 0 then none else some (xs.getD i 0 - xs.getD (i - 1) 0)

def keyShortSMA : String := "short_sma"

def keyLongSMA : String := "long_sma"

def keyMomentum : String := "momentum"

def keyRSI : String := "RSI"

def keyZScore : String := "zscore"

/-- SMAStrategy (strategy.py lines 18-37). -/
def smaStrat (short_window long_window : ℕ) : Strat where
  computeIndicators df :=
    (df.setCol keyShortSMA (rollingMean short_window df.closes)).setCol
      keyLongSMA (rollingMean long_window df.closes)
  generateSignal r :=
    if optGT (r.get keyShortSMA) (r.get keyLongSMA) then .BUY
    else if optLT (r.get keyShortSMA) (r.get keyLongSMA) then .SELL
    else .HOLD

/-- MomentumStrategy (strategy.py lines 40-57). -/
def momentumStrat (lookback : ℕ) : Strat where
  computeIndicators df := df.setCol keyMomentum (pctChange lookback df.closes)
  generateSignal r :=
    if optGTc (r.get keyMomentum) 0 then .BUY
    else if optLTc (r.get keyMomentum) 0 then .SELL
    else .HOLD

/-- MeanReversionStrategy.generate_signal (strategy.py lines 74-80); the
matching compute_indicators needs a real square root (rolling standard
deviation) and is required by no claim. -/
def meanReversionSignal (threshold : ℚ) (r : Row) : PySignal :=
  if optLTc (r.get keyZScore) (-threshold) then .BUY
  else if optGTc (r.get keyZScore) threshold then .SELL
  else .HOLD

/-- `delta.where(delta > 0, 0)` of RSIStrategy: a NaN delta fails the
condition and becomes 0. -/
def gainOf (d : Option ℚ) : ℚ :=
  match d with
  | some x => if 0 < x then x else 0
  | none => 0

/-- `-delta.where(delta < 0, 0)` of RSIStrategy. -/
def lossOf (d : Option ℚ) : ℚ :=
  match d with
  | some x => if x < 0 then -x else 0
  | none => 0

/-- RSIStrategy (strategy.py lines 82-105).  Note `generate_signal`
returns Python None, not HOLD, when neither RSI threshold is crossed. -/
def rsiStrat (period : ℕ) (overbought oversold : ℚ) : Strat where
  computeIndicators df :=
    let delta := diffO df.closes
    let gain := rollingMean period (delta.map gainOf)
    let loss := rollingMean period (delta.map lossOf)
    let rs := List.zipWith
      (fun g l =>
        match g, l with
        | some a, some b => some (a / b)
        | _, _ => none)
      gain loss
    df.setCol keyRSI (rs.map (Option.map fun v => 100 - 100 / (1 + v)))
  generateSignal r :=
    if optLTc (r.get keyRSI) oversold then .BUY
    else if optGTc (r.get keyRSI) overbought then .SELL
    else .NONE

/-- The signal the strategy produces on every row the engine iterates
(backtesting.py lines 44-51): the rows of the indicator frame after the
`Position Size` column of line 45 is initialised. -/
def signalsOf (s : Strat) (df : DF) : List PySignal :=
  (dataPrepared s df).iterrows.map s.generateSignal

/-- `itertools.product` over the value lists of the grid, in enumeration
order. -/
def pyProduct : List (List ℚ) → List (List ℚ)
  | [] => [[]]
  | xs :: rest => xs.flatMap fun x => (pyProduct rest).map fun c => x :: c

/-- The comparison `performance > best_performance` where the running
best starts at `-float("inf")` (modelled by `none`): every rational beats
it. -/
def beatsBest : Option ℚ → ℚ → Bool
  | none, _ => true
  | some b, q => decide (b < q)

/-- The grid-search loop of `optimize_parameters` (backtesting.py lines
107-116), parametric in the trial: for one parameter combination, the
trial is the loop body before the comparison — construct the strategy
from the combination, construct a fresh engine with the default
arguments (initial_cash 10000, ftc 0, ptc 0), run it on a copy of the
data, and return its results dict.  There is no exception handling
around the trial.  The accumulators are the running best performance
(`none` for the initial `-float("inf")`), best parameter combination and
best results. -/
def optimizeGo (trial : List ℚ → Except PyErr Results) :
    List (List ℚ) → Option ℚ → Option (List ℚ) → Option Results →
    Except PyErr (Option (List ℚ) × Option Results)
  | [], _, bp, br => .ok (bp, br)
  | c :: rest, best, bp, br =>
    match trial c with
    | .error e => .error e
    | .ok r =>
      if beatsBest best r.performancePct then
        optimizeGo trial rest (some r.performancePct) (some c) (some r)
      else
        optimizeGo trial rest best bp br

/-- `BacktestEngine.optimize_parameters` (backtesting.py lines 99-119):
grid search over the Cartesian product, returning the best parameter
combination and its results. -/
def optimizeParameters (trial : List ℚ → Except PyErr Results)
    (grid : List (List ℚ)) : Except PyErr (Option (List ℚ) × Option Results) :=
  optimizeGo trial (pyProduct grid) none none none

/-- Seeded drawdown series: the drawdowns of a suffix given the running
maximum of the elements before it.  Proof-side recursion companion of
`drawdowns`. -/
def ddFrom (m : ℚ) : List ℚ → List ℚ
  | [] => []
  | v :: vs => (v / max m v - 1) :: ddFrom (max m v) vs

/- Concrete inputs used by counterexamples and witnesses. -/

/-- Two observations with rising close prices 10, 11. -/
def dfTwo : DF := ⟨[⟨1, 10⟩, ⟨2, 11⟩], []⟩

/-- Falling close prices 9, 8. -/
def dfFall : DF := ⟨[⟨1, 9⟩, ⟨2, 8⟩], []⟩

/-- Close prices 9, 8, 1/2, 1: two falls, then a rise from a low level. -/
def dfSwing : DF := ⟨[⟨1, 9⟩, ⟨2, 8⟩, ⟨3, 1/2⟩, ⟨4, 1⟩], []⟩

/-- One observation with close price 10. -/
def dfOne : DF := ⟨[⟨1, 10⟩], []⟩

/-- Close price drops from 5 to 0. -/
def dfZeroPrice : DF := ⟨[⟨1, 5⟩, ⟨2, 0⟩], []⟩

/-- A trial stub whose performance is the sum of the combination. -/
def trialSum (c : List ℚ) : Except PyErr Results :=
  .ok ⟨0, 0, c.sum, 0, none, []⟩

/-- A trial stub that raises on the combination [2]. -/
def trialErr (c : List ℚ) : Except PyErr Results :=
  if c = [2] then .error .valueError else trialSum c

instance : Std.Antisymm fun x1 x2 : ℚ => x1 ≤ x2 where
  antisymm h1 h2 := le_antisymm h1 h2

/-! ### Helper lemmas -/

theorem pyTrunc_nonneg {q : ℚ} (h : 0 ≤ q) : 0 ≤ pyTrunc q :=
  Int.tdiv_nonneg (Rat.num_nonneg.mpr h) (Int.natCast_nonneg _)

theorem executeTradeCore_buy_applied {ftc ptc : ℚ} {L : Ledger} {d p : ℚ} {u : ℤ}
    (h : (u : ℚ) * p * (1 + ptc) + ftc ≤ L.cash) :
    executeTradeCore ftc ptc L d p Act.BUY u =
      ⟨L.cash - ((u : ℚ) * p * (1 + ptc) + ftc), L.position + u,
       L.trades ++ [⟨d, p, Act.BUY, u⟩]⟩ := by
  simp [executeTradeCore, h]

theorem executeTradeCore_buy_skip {ftc ptc : ℚ} {L : Ledger} {d p : ℚ} {u : ℤ}
    (h : ¬ ((u : ℚ) * p * (1 + ptc) + ftc ≤ L.cash)) :
    executeTradeCore ftc ptc L d p Act.BUY u = L := by
  simp [executeTradeCore, h]

theorem executeTradeCore_sell_applied {ftc ptc : ℚ} {L : Ledger} {d p : ℚ} {u : ℤ}
    (h : u ≤ L.position) :
    executeTradeCore ftc ptc L d p Act.SELL u =
      ⟨L.cash + ((u : ℚ) * p * (1 - ptc) - ftc), L.position - u,
       L.trades ++ [⟨d, p, Act.SELL, u⟩]⟩ := by
  simp [executeTradeCore, h]

theorem executeTradeCore_sell_skip {ftc ptc : ℚ} {L : Ledger} {d p : ℚ} {u : ℤ}
    (h : ¬ (u ≤ L.position)) :
    executeTradeCore ftc ptc L d p Act.SELL u = L := by
  simp [executeTradeCore, h]

theorem executeTradeCore_nonneg {ptc : ℚ} {L : Ledger} {d p : ℚ} {act : Act} {u : ℤ}
    (hptc0 : 0 ≤ ptc) (hptc1 : ptc ≤ 1) (hp : 0 ≤ p) (hu : 0 ≤ u)
    (hc : 0 ≤ L.cash) (hpos : 0 ≤ L.position) :
    0 ≤ (executeTradeCore 0 ptc L d p act u).cash ∧
      0 ≤ (executeTradeCore 0 ptc L d p act u).position := by
  have huq : (0 : ℚ) ≤ (u : ℚ) := by exact_mod_cast hu
  cases act with
  | BUY =>
    by_cases h : (u : ℚ) * p * (1 + ptc) + 0 ≤ L.cash
    · rw [executeTradeCore_buy_applied h]
      refine ⟨?_, add_nonneg hpos hu⟩
      simpa using sub_nonneg.mpr h
    · rw [executeTradeCore_buy_skip h]
      exact ⟨hc, hpos⟩
  | SELL =>
    by_cases h : u ≤ L.position
    · rw [executeTradeCore_sell_applied h]
      have hcost : (0 : ℚ) ≤ (u : ℚ) * p * (1 - ptc) - 0 := by
        have := mul_nonneg (mul_nonneg huq hp) (by linarith : (0:ℚ) ≤ 1 - ptc)
        linarith
      refine ⟨?_, sub_nonneg.mpr h⟩
      show 0 ≤ L.cash + ((u : ℚ) * p * (1 - ptc) - 0)
      linarith
    · rw [executeTradeCore_sell_skip h]
      exact ⟨hc, hpos⟩

theorem executeTrade_price_zero (ftc ptc : ℚ) (L : Ledger) (d : ℚ) (act : Act) :
    executeTrade ftc ptc L d 0 act none = .error .zeroDivision := by
  simp [executeTrade]

theorem executeTrade_some (ftc ptc : ℚ) (L : Ledger) (d p : ℚ) (act : Act) (u : ℤ) :
    executeTrade ftc ptc L d p act (some u) =
      .ok (executeTradeCore ftc ptc L d p act u) := rfl

theorem executeTrade_none_ok {ftc ptc : ℚ} {L : Ledger} {d p : ℚ} {act : Act} {L₂ : Ledger}
    (h : executeTrade ftc ptc L d p act none = .ok L₂) :
    p ≠ 0 ∧ L₂ = executeTradeCore ftc ptc L d p act (pyTrunc (L.cash / p)) := by
  by_cases hp : p = 0
  · rw [hp, executeTrade_price_zero] at h
    cases h
  · refine ⟨hp, ?_⟩
    unfold executeTrade at h
    rw [if_neg hp] at h
    injection h with h
    exact h.symm

theorem executeTrade_ok_nonneg {ptc : ℚ} {L : Ledger} {d p : ℚ} {act : Act}
    {units : Option ℤ} {L₂ : Ledger}
    (hptc0 : 0 ≤ ptc) (hptc1 : ptc ≤ 1) (hp : 0 ≤ p)
    (hu : ∀ v, units = some v → 0 ≤ v)
    (hc : 0 ≤ L.cash) (hpos : 0 ≤ L.position)
    (h : executeTrade 0 ptc L d p act units = .ok L₂) :
    0 ≤ L₂.cash ∧ 0 ≤ L₂.position := by
  cases units with
  | none =>
    obtain ⟨hp0, rfl⟩ := executeTrade_none_ok h
    have hq : 0 ≤ pyTrunc (L.cash / p) := pyTrunc_nonneg (div_nonneg hc hp)
    exact executeTradeCore_nonneg hptc0 hptc1 hp hq hc hpos
  | some v =>
    rw [executeTrade_some] at h
    injection h with h
    rw [← h]
    exact executeTradeCore_nonneg hptc0 hptc1 hp (hu v rfl) hc hpos

theorem runLoop_nil (sig : Row → PySignal) (ftc ptc : ℚ) (L : Ledger) :
    runLoop sig ftc ptc [] L = .ok (L, []) := rfl

theorem runLoop_cons (sig : Row → PySignal) (ftc ptc : ℚ) (r : Row) (rs : List Row)
    (L : Ledger) :
    runLoop sig ftc ptc (r :: rs) L =
      match
        (match sig r with
         | .BUY => executeTrade ftc ptc L r.obs.timestamp r.obs.close_price Act.BUY none
         | .SELL => executeTrade ftc ptc L r.obs.timestamp r.obs.close_price Act.SELL none
         | _ => .ok L) with
      | .error e => .error e
      | .ok L₁ =>
        match runLoop sig ftc ptc rs L₁ with
        | .error e => .error e
        | .ok (Lf, tr) => .ok (Lf, L₁ :: tr) := rfl

theorem runLoop_length {sig : Row → PySignal} {ftc ptc : ℚ} :
    ∀ {rows : List Row} {L Lf : Ledger} {tr : List Ledger},
      runLoop sig ftc ptc rows L = .ok (Lf, tr) → tr.length = rows.length := by
  intro rows
  induction rows with
  | nil =>
    intro L Lf tr h
    rw [runLoop_nil] at h
    injection h with h
    injection h with h1 h2
    rw [← h2]
    rfl
  | cons r rs ih =>
    intro L Lf tr h
    rw [runLoop_cons] at h
    split at h
    · cases h
    · split at h
      · cases h
      · injection h with h
        cases h
        simp [ih (by assumption)]

theorem runLoop_last {sig : Row → PySignal} {ftc ptc : ℚ} :
    ∀ {rows : List Row} {L Lf : Ledger} {tr : List Ledger},
      runLoop sig ftc ptc rows L = .ok (Lf, tr) → rows ≠ [] → tr.getLast? = some Lf := by
  intro rows
  induction rows with
  | nil =>
    intro L Lf tr h hne
    exact absurd rfl hne
  | cons r rs ih =>
    intro L Lf tr h hne
    rw [runLoop_cons] at h
    split at h
    · cases h
    · split at h
      · cases h
      · rename_i step1 L₁ heq x1 Lf' tr' heq2
        injection h with h
        injection h with h1 h2
        subst h1
        subst h2
        by_cases hrs : rs = []
        · subst hrs
          rw [runLoop_nil] at heq2
          injection heq2 with heq2
          injection heq2 with e1 e2
          subst e1
          rw [← e2]
          rfl
        · have htr' : tr' ≠ [] := by
            intro hcon
            have := runLoop_length heq2
            rw [hcon] at this
            exact hrs (List.eq_nil_of_length_eq_zero this.symm)
          cases tr' with
          | nil => exact absurd rfl htr'
          | cons c l =>
            rw [List.getLast?_cons_cons]
            exact ih heq2 hrs

theorem runLoop_nonneg {sig : Row → PySignal} {ptc : ℚ}
    (hptc0 : 0 ≤ ptc) (hptc1 : ptc ≤ 1) :
    ∀ {rows : List Row} {L Lf : Ledger} {tr : List Ledger},
      (∀ r ∈ rows, 0 ≤ r.obs.close_price) →
      0 ≤ L.cash → 0 ≤ L.position →
      runLoop sig 0 ptc rows L = .ok (Lf, tr) →
      (∀ M ∈ tr, 0 ≤ M.cash ∧ 0 ≤ M.position) ∧ 0 ≤ Lf.cash ∧ 0 ≤ Lf.position := by
  intro rows
  induction rows with
  | nil =>
    intro L Lf tr hr hc hpos h
    rw [runLoop_nil] at h
    injection h with h
    injection h with h1 h2
    subst h1
    rw [← h2]
    exact ⟨(fun M hM => nomatch hM), hc, hpos⟩
  | cons r rs ih =>
    intro L Lf tr hr hc hpos h
    rw [runLoop_cons] at h
    split at h
    · cases h
    · split at h
      · cases h
      · rename_i step1 L₁ heq x1 Lf' tr' heq2
        injection h with h
        injection h with h1 h2
        subst h1
        subst h2
        have hL₁ : 0 ≤ L₁.cash ∧ 0 ≤ L₁.position := by
          split at heq
          · exact executeTrade_ok_nonneg hptc0 hptc1 (hr r (by simp))
              (fun v hv => by cases hv) hc hpos heq
          · exact executeTrade_ok_nonneg hptc0 hptc1 (hr r (by simp))
              (fun v hv => by cases hv) hc hpos heq
          · injection heq with heq
            rw [← heq]
            exact ⟨hc, hpos⟩
        have hrest := ih (fun x hx => hr x (List.mem_cons_of_mem _ hx)) hL₁.1 hL₁.2 heq2
        refine ⟨?_, hrest.2⟩
        intro M hM
        rcases List.mem_cons.mp hM with rfl | hM
        · exact hL₁
        · exact hrest.1 M hM

theorem runLoop_hold {sig : Row → PySignal} {ftc ptc : ℚ} :
    ∀ {rows : List Row} {L : Ledger},
      (∀ r ∈ rows, sig r ≠ .BUY ∧ sig r ≠ .SELL) →
      runLoop sig ftc ptc rows L = .ok (L, rows.map fun _ => L) := by
  intro rows
  induction rows with
  | nil =>
    intro L h
    rfl
  | cons r rs ih =>
    intro L h
    have hd := h r (by simp)
    have hsub := fun x hx => h x (List.mem_cons_of_mem r hx)
    rcases hs : sig r
    · exact absurd hs hd.1
    · exact absurd hs hd.2
    · simp only [runLoop, hs, ih hsub, List.map_cons]
    · simp only [runLoop, hs, ih hsub, List.map_cons]

theorem DF.obs_setCol (df : DF) (n : String) (v : List (Option ℚ)) :
    (df.setCol n v).obs = df.obs := rfl

theorem find?_setColFn_self (cols : List (String × List (Option ℚ))) (n : String)
    (v : List (Option ℚ)) :
    (setColFn cols n v).find? (fun c => c.1 == n) = some (n, v) := by
  induction cols with
  | nil => simp [setColFn]
  | cons c rest ih =>
    by_cases h : c.1 = n
    · simp [setColFn, h]
    · simp only [setColFn, if_neg h]
      rw [List.find?_cons_of_neg _ (by simp [h]), ih]

theorem DF.col_setCol_self (df : DF) (n : String) (v : List (Option ℚ)) :
    (df.setCol n v).col n = some v := by
  simp [DF.col, DF.setCol, find?_setColFn_self]

theorem find?_setColFn_ne (cols : List (String × List (Option ℚ))) (n m : String)
    (v : List (Option ℚ)) (h : m ≠ n) :
    (setColFn cols n v).find? (fun c => c.1 == m) = cols.find? (fun c => c.1 == m) := by
  induction cols with
  | nil => simp [setColFn, Ne.symm h]
  | cons c rest ih =>
    by_cases hc : c.1 = n
    · simp only [setColFn, if_pos hc]
      rw [List.find?_cons_of_neg _ (by simp [Ne.symm h]),
        List.find?_cons_of_neg _ (by simp [hc, Ne.symm h])]
    · simp only [setColFn, if_neg hc]
      by_cases hm : c.1 = m
      · rw [List.find?_cons_of_pos _ (by simp [hm]), List.find?_cons_of_pos _ (by simp [hm])]
      · rw [List.find?_cons_of_neg _ (by simp [hm]), List.find?_cons_of_neg _ (by simp [hm]), ih]

theorem DF.col_setCol_ne (df : DF) (n m : String) (v : List (Option ℚ)) (h : m ≠ n) :
    (df.setCol n v).col m = df.col m := by
  simp only [DF.col, DF.setCol]
  rw [find?_setColFn_ne _ _ _ _ h]

theorem iterrows_length (df : DF) : df.iterrows.length = df.obs.length := by
  simp [DF.iterrows]

theorem mem_iterrows_obs {df : DF} {r : Row} (h : r ∈ df.iterrows) : r.obs ∈ df.obs := by
  unfold DF.iterrows at h
  obtain ⟨i, hi, rfl⟩ := List.mem_map.mp h
  have hilen : i < df.obs.length := List.mem_range.mp hi
  show df.obs.getD i ⟨0, 0⟩ ∈ df.obs
  rw [List.getD_eq_getElem _ _ hilen]
  exact List.getElem_mem hilen

theorem getD_none_of_all_none {vs : List (Option ℚ)} (h : ∀ v ∈ vs, v = none) (i : ℕ) :
    vs.getD i none = none := by
  induction vs generalizing i with
  | nil => rfl
  | cons v vs ih =>
    cases i with
    | zero => exact h v (List.mem_cons_self v vs)
    | succ j => exact ih (fun x hx => h x (List.mem_cons_of_mem v hx)) j

theorem row_get_none_of_col_none {df : DF} {n : String} {vs : List (Option ℚ)}
    (hcol : df.col n = some vs) (hall : ∀ v ∈ vs, v = none) :
    ∀ r ∈ df.iterrows, r.get n = none := by
  intro r hr
  unfold DF.iterrows at hr
  obtain ⟨i, hi, rfl⟩ := List.mem_map.mp hr
  unfold Row.get
  rw [List.find?_map]
  unfold DF.col at hcol
  cases hfind : df.cols.find? (fun c => c.1 == n) with
  | none =>
    rw [hfind] at hcol
    cases hcol
  | some c0 =>
    rw [hfind] at hcol
    simp only [Option.map_some'] at hcol
    injection hcol with hcol
    have hcomp : ((fun c : String × Option ℚ => c.1 == n) ∘
        (fun c : String × List (Option ℚ) => (c.1, c.2.getD i none))) =
        fun c : String × List (Option ℚ) => c.1 == n := rfl
    rw [hcomp, hfind]
    show c0.2.getD i none = none
    rw [hcol]
    exact getD_none_of_all_none hall i

theorem rollingMean_none_of_short {w : ℕ} {xs : List ℚ} (h : xs.length < w) :
    ∀ v ∈ rollingMean w xs, v = none := by
  intro v hv
  unfold rollingMean at hv
  obtain ⟨i, hi, rfl⟩ := List.mem_map.mp hv
  have hilen : i < xs.length := List.mem_range.mp hi
  rw [if_pos (by omega)]

theorem runBacktest_ok_loop {strat : Strat} {cash0 ftc ptc : ℚ} {data : DF}
    {L₁ : Ledger} {tr : List Ledger}
    (h : runLoop strat.generateSignal ftc ptc (dataPrepared strat data).iterrows
        ⟨cash0, 0, []⟩ = .ok (L₁, tr)) :
    runBacktest strat cash0 ftc ptc data =
      finishRun cash0 ftc ptc (dataPrepared strat data) L₁ tr := by
  unfold runBacktest
  rw [h]

theorem runBacktest_ok_elim {strat : Strat} {cash0 ftc ptc : ℚ} {data : DF} {out : RunOut}
    (h : runBacktest strat cash0 ftc ptc data = .ok out) :
    ∃ L₁ tr,
      runLoop strat.generateSignal ftc ptc (dataPrepared strat data).iterrows
        ⟨cash0, 0, []⟩ = .ok (L₁, tr) ∧
      finishRun cash0 ftc ptc (dataPrepared strat data) L₁ tr = .ok out := by
  unfold runBacktest at h
  split at h
  · cases h
  · rename_i x L₁ tr heq
    exact ⟨L₁, tr, heq, h⟩

theorem finishRun_ok_elim {cash0 ftc ptc : ℚ} {data2 : DF} {L₁ : Ledger}
    {tr : List Ledger} {out : RunOut}
    (h : finishRun cash0 ftc ptc data2 L₁ tr = .ok out) :
    ∃ L₂ fnw,
      closeOut ftc ptc data2.iterrows L₁ = .ok L₂ ∧
      (portfolioValues tr data2.iterrows).getLast? = some fnw ∧
      cash0 ≠ 0 ∧
      out = ⟨⟨L₂.cash, fnw, (fnw - cash0) / cash0 * 100, L₂.trades.length,
              computeMaxDrawdown (portfolioValues tr data2.iterrows),
              portfolioValues tr data2.iterrows⟩,
             (data2.setCol keyPositionSize (tr.map fun L => some (L.position : ℚ))).setCol
               keyNetWealth ((portfolioValues tr data2.iterrows).map some),
             L₂⟩ := by
  unfold finishRun at h
  split at h
  · cases h
  · rename_i L₂ heq
    split at h
    · cases h
    · rename_i x fnw heq2
      split at h
      · cases h
      · rename_i hc0
        injection h with h
        exact ⟨L₂, fnw, heq, heq2, hc0, h.symm⟩

theorem closeOut_nonpos {ftc ptc : ℚ} {rows : List Row} {L₁ : Ledger}
    (h : ¬ 0 < L₁.position) : closeOut ftc ptc rows L₁ = .ok L₁ := by
  unfold closeOut
  rw [if_neg h]

theorem closeOut_position_zero {ftc ptc : ℚ} {rows : List Row} {L₁ L₂ : Ledger}
    (hpos : 0 ≤ L₁.position)
    (h : closeOut ftc ptc rows L₁ = .ok L₂) : L₂.position = 0 := by
  unfold closeOut at h
  by_cases hp : 0 < L₁.position
  · rw [if_pos hp] at h
    cases hlast : rows.getLast? with
    | none =>
      rw [hlast] at h
      cases h
    | some r =>
      rw [hlast] at h
      have h2 : executeTrade ftc ptc L₁ r.obs.timestamp r.obs.close_price Act.SELL
          (some L₁.position) = Except.ok L₂ := h
      rw [executeTrade_some] at h2
      injection h2 with h2
      rw [← h2, executeTradeCore_sell_applied le_rfl]
      show L₁.position - L₁.position = 0
      omega
  · rw [if_neg hp] at h
    injection h with h
    rw [← h]
    omega

theorem closeOut_cash_zero_costs {rows : List Row} {L₁ L₂ : Ledger} {r : Row}
    (hpos : 0 ≤ L₁.position)
    (hlast : rows.getLast? = some r)
    (h : closeOut 0 0 rows L₁ = .ok L₂) :
    L₂.cash = L₁.cash + (L₁.position : ℚ) * r.obs.close_price := by
  unfold closeOut at h
  by_cases hp : 0 < L₁.position
  · rw [if_pos hp, hlast] at h
    have h2 : executeTrade 0 0 L₁ r.obs.timestamp r.obs.close_price Act.SELL
        (some L₁.position) = Except.ok L₂ := h
    rw [executeTrade_some] at h2
    injection h2 with h2
    rw [← h2, executeTradeCore_sell_applied le_rfl]
    show L₁.cash + ((L₁.position : ℚ) * r.obs.close_price * (1 - 0) - 0) = _
    ring
  · rw [if_neg hp] at h
    injection h with h
    have hz : L₁.position = 0 := by omega
    rw [← h, hz]
    push_cast
    ring

theorem portfolioValues_getLast :
    ∀ {tr : List Ledger} {rows : List Row} {Lf : Ledger} {r : Row},
      tr.length = rows.length →
      tr.getLast? = some Lf → rows.getLast? = some r →
      (portfolioValues tr rows).getLast? =
        some (Lf.cash + (Lf.position : ℚ) * r.obs.close_price) := by
  intro tr
  induction tr with
  | nil =>
    intro rows Lf r hlen htr hrow
    cases htr
  | cons a tr ih =>
    intro rows Lf r hlen htr hrow
    cases rows with
    | nil => cases hrow
    | cons b rows =>
      cases tr with
      | nil =>
        cases rows with
        | nil =>
          injection htr with htr
          injection hrow with hrow
          subst htr
          subst hrow
          rfl
        | cons c rows => simp at hlen
      | cons a2 tr2 =>
        cases rows with
        | nil => simp at hlen
        | cons b2 rows2 =>
          have hlen2 : (a2 :: tr2).length = (b2 :: rows2).length := by
            simpa using hlen
          rw [List.getLast?_cons_cons] at htr
          rw [List.getLast?_cons_cons] at hrow
          show (List.zipWith _ (a :: a2 :: tr2) (b :: b2 :: rows2)).getLast? = _
          rw [List.zipWith_cons_cons, List.zipWith_cons_cons, List.getLast?_cons_cons]
          exact ih hlen2 htr hrow

theorem portfolioValues_hold (K : Ledger) (rows : List Row) :
    portfolioValues (rows.map fun _ => K) rows =
      rows.map fun r => K.cash + (K.position : ℚ) * r.obs.close_price := by
  unfold portfolioValues
  rw [List.zipWith_map_left, List.zipWith_same]

theorem getLast?_map_const {α β : Type} (c : β) :
    ∀ (l : List α), l ≠ [] → (l.map fun _ => c).getLast? = some c := by
  intro l
  induction l with
  | nil => intro h; exact absurd rfl h
  | cons a l ih =>
    intro h
    cases l with
    | nil => rfl
    | cons b l2 =>
      rw [List.map_cons, List.map_cons, List.getLast?_cons_cons]
      exact ih (by simp)

theorem finishRun_eval {cash0 ftc ptc : ℚ} {data2 : DF} {L₁ L₂ : Ledger}
    {tr : List Ledger} {fnw : ℚ}
    (hclose : closeOut ftc ptc data2.iterrows L₁ = .ok L₂)
    (hlast : (portfolioValues tr data2.iterrows).getLast? = some fnw)
    (hc : cash0 ≠ 0) :
    finishRun cash0 ftc ptc data2 L₁ tr =
      .ok ⟨⟨L₂.cash, fnw, (fnw - cash0) / cash0 * 100, L₂.trades.length,
            computeMaxDrawdown (portfolioValues tr data2.iterrows),
            portfolioValues tr data2.iterrows⟩,
           (data2.setCol keyPositionSize (tr.map fun L => some (L.position : ℚ))).setCol
             keyNetWealth ((portfolioValues tr data2.iterrows).map some),
           L₂⟩ := by
  simp only [finishRun, hclose, hlast, if_neg hc]

theorem run_allHold (strat : Strat) (cash0 ftc ptc : ℚ) (df : DF)
    (hne : (dataPrepared strat df).obs ≠ [])
    (hc : cash0 ≠ 0)
    (hsig : ∀ r ∈ (dataPrepared strat df).iterrows,
        strat.generateSignal r ≠ .BUY ∧ strat.generateSignal r ≠ .SELL) :
    ∃ out, runBacktest strat cash0 ftc ptc df = .ok out ∧
      out.results.performancePct = 0 ∧ out.results.totalTrades = 0 ∧
      out.ledger.position = 0 ∧ out.ledger.trades = [] ∧
      out.results.finalBalance = cash0 ∧ out.results.finalNetWealth = cash0 := by
  have hrows : (dataPrepared strat df).iterrows ≠ [] := by
    intro hcon
    apply hne
    have := iterrows_length (dataPrepared strat df)
    rw [hcon] at this
    exact List.eq_nil_of_length_eq_zero this.symm
  have hloop := @runLoop_hold strat.generateSignal ftc ptc (dataPrepared strat df).iterrows ⟨cash0, 0, []⟩ hsig
  have hmap : ((dataPrepared strat df).iterrows.map fun r =>
      (⟨cash0, 0, []⟩ : Ledger).cash +
        ((⟨cash0, 0, []⟩ : Ledger).position : ℚ) * r.obs.close_price) =
      (dataPrepared strat df).iterrows.map fun _ => cash0 := by
    apply List.map_congr_left
    intro a ha
    show cash0 + ((0 : ℤ) : ℚ) * a.obs.close_price = cash0
    push_cast
    ring
  have hlast : (portfolioValues
      ((dataPrepared strat df).iterrows.map fun _ => (⟨cash0, 0, []⟩ : Ledger))
      (dataPrepared strat df).iterrows).getLast? = some cash0 := by
    rw [portfolioValues_hold, hmap]
    exact getLast?_map_const cash0 _ hrows
  have hclose : closeOut ftc ptc (dataPrepared strat df).iterrows
      (⟨cash0, 0, []⟩ : Ledger) = .ok (⟨cash0, 0, []⟩ : Ledger) :=
    closeOut_nonpos (by show ¬ (0 : ℤ) < 0; omega)
  rw [runBacktest_ok_loop hloop, finishRun_eval hclose hlast hc]
  refine ⟨_, rfl, ?_, rfl, rfl, rfl, rfl, rfl⟩
  show (cash0 - cash0) / cash0 * 100 = 0
  rw [sub_self]
  ring

theorem ddFrom_eq : ∀ (m : ℚ) (xs : List ℚ),
    List.zipWith (fun v c => v / c - 1) xs ((cummax xs).map fun y => max m y) =
      ddFrom m xs := by
  intro m xs
  induction xs generalizing m with
  | nil => rfl
  | cons v vs ih =>
    show List.zipWith _ (v :: vs)
        (max m v :: ((cummax vs).map fun y => max v y).map fun y => max m y) = _
    rw [List.zipWith_cons_cons, List.map_map]
    have hcomp : ((fun y => max m y) ∘ fun y => max v y) = fun y => max (max m v) y := by
      funext y
      exact (max_assoc m v y).symm
    rw [hcomp, ih (max m v)]
    rfl

theorem drawdowns_cons (x : ℚ) (xs : List ℚ) :
    drawdowns (x :: xs) = (x / x - 1) :: ddFrom x xs := by
  unfold drawdowns
  show List.zipWith _ (x :: xs) (x :: (cummax xs).map fun y => max x y) = _
  rw [List.zipWith_cons_cons, ddFrom_eq]

theorem ddFrom_nonpos : ∀ {m : ℚ} {vs : List ℚ}, 0 < m → (∀ v ∈ vs, 0 < v) →
    ∀ d ∈ ddFrom m vs, d ≤ 0 := by
  intro m vs
  induction vs generalizing m with
  | nil =>
    intro _ _ d hd
    exact absurd hd (by simp [ddFrom])
  | cons v vs ih =>
    intro hm hv d hd
    have hvpos : 0 < v := hv v (List.mem_cons_self v vs)
    have hmax : 0 < max m v := lt_of_lt_of_le hm (le_max_left m v)
    rcases List.mem_cons.mp hd with rfl | hd
    · have h1 : v / max m v ≤ 1 := (div_le_one hmax).mpr (le_max_right m v)
      linarith
    · exact ih hmax (fun x hx => hv x (List.mem_cons_of_mem v hx)) d hd

theorem ddFrom_nonneg_iff : ∀ {m : ℚ} {vs : List ℚ}, 0 < m → (∀ v ∈ vs, 0 < v) →
    ((∀ d ∈ ddFrom m vs, 0 ≤ d) ↔ List.Chain (· ≤ ·) m vs) := by
  intro m vs
  induction vs generalizing m with
  | nil =>
    intro _ _
    exact ⟨fun _ => List.Chain.nil, fun _ d hd => absurd hd (by simp [ddFrom])⟩
  | cons v vs ih =>
    intro hm hv
    have hvpos : 0 < v := hv v (List.mem_cons_self v vs)
    have hvs : ∀ x ∈ vs, 0 < x := fun x hx => hv x (List.mem_cons_of_mem v hx)
    have hmax : 0 < max m v := lt_of_lt_of_le hm (le_max_left m v)
    rw [List.chain_cons]
    constructor
    · intro h
      have hd1 : 0 ≤ v / max m v - 1 := h _ (List.mem_cons_self _ _)
      have h2 : 1 ≤ v / max m v := by linarith
      have h1 : max m v ≤ v := (one_le_div hmax).mp h2
      have hmv : m ≤ v := le_trans (le_max_left m v) h1
      have hmaxeq : max m v = v := max_eq_right hmv
      refine ⟨hmv, ?_⟩
      apply (ih hvpos hvs).mp
      intro d hd
      apply h
      apply List.mem_cons_of_mem
      rw [hmaxeq]
      exact hd
    · rintro ⟨hmv, hchain⟩
      have hmaxeq : max m v = v := max_eq_right hmv
      intro d hd
      rcases List.mem_cons.mp hd with rfl | hd
      · rw [hmaxeq, div_self (ne_of_gt hvpos)]
        norm_num
      · rw [hmaxeq] at hd
        exact (ih hvpos hvs).mpr hchain d hd

theorem rat_min?_eq_some_iff {xs : List ℚ} {a : ℚ} :
    xs.min? = some a ↔ a ∈ xs ∧ ∀ b ∈ xs, a ≤ b :=
  List.min?_eq_some_iff (fun x => le_refl x) (fun x y => min_choice x y)
    (fun x y z => le_min_iff)

theorem beatsBest_none (q : ℚ) : beatsBest none q = true := rfl

theorem beatsBest_some_true {b q : ℚ} : beatsBest (some b) q = true ↔ b < q := by
  simp [beatsBest]

theorem beatsBest_some_false {b q : ℚ} : beatsBest (some b) q = false ↔ q ≤ b := by
  simp [beatsBest]

theorem optimizeGo_ok_trials {trial : List ℚ → Except PyErr Results} :
    ∀ {combos : List (List ℚ)} {best : Option ℚ} {bp : Option (List ℚ)}
      {br : Option Results} {out : Option (List ℚ) × Option Results},
      optimizeGo trial combos best bp br = .ok out →
      ∀ c ∈ combos, ∃ r, trial c = .ok r := by
  intro combos
  induction combos with
  | nil =>
    intro best bp br out h c hc
    exact absurd hc (by simp)
  | cons c0 rest ih =>
    intro best bp br out h c hc
    cases htr : trial c0 with
    | error e =>
      simp only [optimizeGo, htr] at h
      cases h
    | ok r =>
      simp only [optimizeGo, htr] at h
      rcases List.mem_cons.mp hc with rfl | hc
      · exact ⟨r, htr⟩
      · by_cases hb : beatsBest best r.performancePct
        · rw [if_pos hb] at h
          exact ih h c hc
        · rw [if_neg hb] at h
          exact ih h c hc

theorem optimizeGo_spec {trial : List ℚ → Except PyErr Results} :
    ∀ {combos : List (List ℚ)} {best : Option ℚ} {bp : Option (List ℚ)}
      {br : Option Results} {out : Option (List ℚ) × Option Results},
      optimizeGo trial combos best bp br = .ok out →
      (out = (bp, br) ∧
        ∀ c ∈ combos, ∃ q, trial c = .ok q ∧ beatsBest best q.performancePct = false)
      ∨ (∃ p r l1 l2, out = (some p, some r) ∧ trial p = .ok r ∧
          beatsBest best r.performancePct = true ∧
          combos = l1 ++ p :: l2 ∧
          (∀ c ∈ l1, ∃ q, trial c = .ok q ∧ q.performancePct < r.performancePct) ∧
          (∀ c ∈ l2, ∃ q, trial c = .ok q ∧ q.performancePct ≤ r.performancePct)) := by
  intro combos
  induction combos with
  | nil =>
    intro best bp br out h
    left
    simp only [optimizeGo] at h
    injection h with h
    exact ⟨h.symm, fun c hc => absurd hc (by simp)⟩
  | cons c0 rest ih =>
    intro best bp br out h
    cases htr : trial c0 with
    | error e =>
      simp only [optimizeGo, htr] at h
      cases h
    | ok r =>
      simp only [optimizeGo, htr] at h
      by_cases hb : beatsBest best r.performancePct
      · rw [if_pos hb] at h
        rcases ih h with ⟨houteq, hrest⟩ | ⟨p, r', l1, l2, ho, htr', hb', hsplit, hl1, hl2⟩
        · right
          refine ⟨c0, r, [], rest, houteq, htr, hb, rfl, ?_, ?_⟩
          · intro c hc
            exact absurd hc (by simp)
          · intro c hc
            obtain ⟨q, hq, hqb⟩ := hrest c hc
            exact ⟨q, hq, beatsBest_some_false.mp hqb⟩
        · right
          have hrr' : r.performancePct < r'.performancePct :=
            beatsBest_some_true.mp hb'
          have hbb : beatsBest best r'.performancePct = true := by
            cases best with
            | none => rfl
            | some b =>
              have hbr : b < r.performancePct := beatsBest_some_true.mp hb
              exact beatsBest_some_true.mpr (lt_trans hbr hrr')
          refine ⟨p, r', c0 :: l1, l2, ho, htr', hbb, by rw [hsplit]; rfl, ?_, hl2⟩
          intro c hc
          rcases List.mem_cons.mp hc with rfl | hc
          · exact ⟨r, htr, hrr'⟩
          · exact hl1 c hc
      · rw [if_neg hb] at h
        have hb' : beatsBest best r.performancePct = false := by
          cases hx : beatsBest best r.performancePct
          · rfl
          · exact absurd hx hb
        rcases ih h with ⟨houteq, hrest⟩ | ⟨p, r', l1, l2, ho, htr', hbt, hsplit, hl1, hl2⟩
        · left
          refine ⟨houteq, ?_⟩
          intro c hc
          rcases List.mem_cons.mp hc with rfl | hc
          · exact ⟨r, htr, hb'⟩
          · exact hrest c hc
        · right
          have hbest : ∃ b, best = some b := by
            cases best with
            | none =>
              exfalso
              rw [beatsBest_none] at hb'
              cases hb'
            | some b => exact ⟨b, rfl⟩
          obtain ⟨b, rfl⟩ := hbest
          have h1 : r.performancePct ≤ b := beatsBest_some_false.mp hb'
          have h2 : b < r'.performancePct := beatsBest_some_true.mp hbt
          refine ⟨p, r', c0 :: l1, l2, ho, htr', hbt, by rw [hsplit]; rfl, ?_, hl2⟩
          intro c hc
          rcases List.mem_cons.mp hc with rfl | hc
          · exact ⟨r, htr, lt_of_le_of_lt h1 h2⟩
          · exact hl1 c hc

theorem zipWith_none_left {g : Option ℚ → Option ℚ → Option ℚ}
    (hg : ∀ b, g none b = none) :
    ∀ (as bs : List (Option ℚ)), (∀ a ∈ as, a = none) →
      ∀ z ∈ List.zipWith g as bs, z = none := by
  intro as
  induction as with
  | nil =>
    intro bs _ z hz
    simp at hz
  | cons a as ih =>
    intro bs ha z hz
    cases bs with
    | nil => simp at hz
    | cons b bs =>
      rw [List.zipWith_cons_cons] at hz
      rcases List.mem_cons.mp hz with rfl | hz
      · rw [ha a (List.mem_cons_self a as)]
        exact hg b
      · exact ih bs (fun x hx => ha x (List.mem_cons_of_mem a hx)) z hz

theorem diffO_length (xs : List ℚ) : (diffO xs).length = xs.length := by
  simp [diffO]

theorem closes_length (df : DF) : df.closes.length = df.obs.length := by
  simp [DF.closes]

theorem rsi_col_allNone {period : ℕ} {ob os : ℚ} {df : DF}
    (h : df.obs.length < period) :
    ∃ vs, ((rsiStrat period ob os).computeIndicators df).col keyRSI = some vs ∧
      ∀ v ∈ vs, v = none := by
  refine ⟨_, DF.col_setCol_self df keyRSI _, ?_⟩
  intro v hv
  obtain ⟨w, hw, rfl⟩ := List.mem_map.mp hv
  have hgain : ∀ a ∈ rollingMean period ((diffO df.closes).map gainOf), a = none := by
    apply rollingMean_none_of_short
    rw [List.length_map, diffO_length, closes_length]
    exact h
  have hwnone : w = none :=
    zipWith_none_left (fun b => rfl) _ _ hgain w hw
  rw [hwnone]
  rfl

theorem rsiSignals_NONE {period : ℕ} {ob os : ℚ} {df : DF}
    (h : df.obs.length < period) :
    ∀ r ∈ (dataPrepared (rsiStrat period ob os) df).iterrows,
      (rsiStrat period ob os).generateSignal r = .NONE := by
  intro r hr
  obtain ⟨vs, hcol, hall⟩ := @rsi_col_allNone period ob os df h
  have hcol2 : (dataPrepared (rsiStrat period ob os) df).col keyRSI = some vs := by
    unfold dataPrepared
    rw [DF.col_setCol_ne _ _ _ _ (by decide)]
    exact hcol
  have hget := row_get_none_of_col_none hcol2 hall r hr
  show (if optLTc (r.get keyRSI) os then PySignal.BUY
        else if optGTc (r.get keyRSI) ob then PySignal.SELL
        else PySignal.NONE) = PySignal.NONE
  rw [hget]
  rfl

theorem dataPrepared_obs (strat : Strat) (df : DF) :
    (dataPrepared strat df).obs = (strat.computeIndicators df).obs := rfl

theorem executeTrade_buy_skip {ftc ptc : ℚ} {L : Ledger} {d p : ℚ} {u : ℤ}
    (h : ¬ ((u : ℚ) * p * (1 + ptc) + ftc ≤ L.cash)) :
    executeTrade ftc ptc L d p Act.BUY (some u) = .ok L := by
  rw [executeTrade_some, executeTradeCore_buy_skip h]

theorem executeTrade_sell_skip {ftc ptc : ℚ} {L : Ledger} {d p : ℚ} {u : ℤ}
    (h : ¬ (u ≤ L.position)) :
    executeTrade ftc ptc L d p Act.SELL (some u) = .ok L := by
  rw [executeTrade_some, executeTradeCore_sell_skip h]

theorem smaSignals_HOLD {sw lw : ℕ} {df : DF} (h : df.obs.length < lw) :
    ∀ r ∈ (dataPrepared (smaStrat sw lw) df).iterrows,
      (smaStrat sw lw).generateSignal r = .HOLD := by
  intro r hr
  have hcol : ((smaStrat sw lw).computeIndicators df).col keyLongSMA =
      some (rollingMean lw df.closes) := DF.col_setCol_self _ _ _
  have hcol2 : (dataPrepared (smaStrat sw lw) df).col keyLongSMA =
      some (rollingMean lw df.closes) := by
    unfold dataPrepared
    rw [DF.col_setCol_ne _ _ _ _ (by decide)]
    exact hcol
  have hall : ∀ v ∈ rollingMean lw df.closes, v = none := by
    apply rollingMean_none_of_short
    rw [closes_length]
    exact h
  have hget := row_get_none_of_col_none hcol2 hall r hr
  show (if optGT (r.get keyShortSMA) (r.get keyLongSMA) then PySignal.BUY
        else if optLT (r.get keyShortSMA) (r.get keyLongSMA) then PySignal.SELL
        else PySignal.HOLD) = PySignal.HOLD
  rw [hget]
  cases r.get keyShortSMA <;> rfl

/-! ### Claim theorems -/

/-- C1 (amended): with no fixed transaction cost (ftc = 0), a
proportional cost between 0 and 1, and non-negative prices, every ledger
the backtest loop produces satisfies cash ≥ 0 and position ≥ 0; and
`execute_trade` applies a BUY only when its total cost is within cash
and a SELL only when the held position covers the requested units,
leaving the ledger unchanged otherwise.  (As stated, with a positive
ftc, the claim is false: see the counterexample.) -/
theorem backtest_ledger_nonneg :
    (∀ (sig : Row → PySignal) (ptc : ℚ) (rows : List Row) (L0 Lf : Ledger)
        (tr : List Ledger),
      0 ≤ ptc → ptc ≤ 1 →
      (∀ r ∈ rows, 0 ≤ r.obs.close_price) →
      0 ≤ L0.cash → 0 ≤ L0.position →
      runLoop sig 0 ptc rows L0 = .ok (Lf, tr) →
      ∀ M ∈ tr, 0 ≤ M.cash ∧ 0 ≤ M.position) ∧
    (∀ (ftc ptc : ℚ) (L : Ledger) (d p : ℚ) (u : ℤ),
      ¬ ((u : ℚ) * p * (1 + ptc) + ftc ≤ L.cash) →
      executeTrade ftc ptc L d p Act.BUY (some u) = .ok L) ∧
    (∀ (ftc ptc : ℚ) (L : Ledger) (d p : ℚ) (u : ℤ),
      ¬ (u ≤ L.position) →
      executeTrade ftc ptc L d p Act.SELL (some u) = .ok L) := by
  refine ⟨?_, ?_, ?_⟩
  · intro sig ptc rows L0 Lf tr hptc0 hptc1 hr hc hpos h
    exact (runLoop_nonneg hptc0 hptc1 hr hc hpos h).1
  · intro ftc ptc L d p u h
    exact executeTrade_buy_skip h
  · intro ftc ptc L d p u h
    exact executeTrade_sell_skip h

/-- C1 witness: a run of the momentum strategy over two rising prices
with zero costs keeps the per-step ledgers non-negative, and the two
skip guards leave concrete ledgers unchanged. -/
theorem backtest_ledger_nonneg_witness :
    (∀ M ∈ [(⟨10, 0, []⟩ : Ledger), ⟨10, 0, [⟨2, 11, Act.BUY, 0⟩]⟩],
        0 ≤ M.cash ∧ 0 ≤ M.position) ∧
    (executeTrade 0 0 ⟨1, 0, []⟩ 1 5 Act.BUY (some 1) = .ok ⟨1, 0, []⟩) ∧
    (executeTrade 0 0 ⟨1, 5, []⟩ 1 5 Act.SELL (some 6) = .ok ⟨1, 5, []⟩) := by
  refine ⟨?_, ?_, ?_⟩
  · exact backtest_ledger_nonneg.1 (momentumStrat 1).generateSignal 0
      (dataPrepared (momentumStrat 1) dfTwo).iterrows ⟨10, 0, []⟩
      ⟨10, 0, [⟨2, 11, Act.BUY, 0⟩]⟩
      [⟨10, 0, []⟩, ⟨10, 0, [⟨2, 11, Act.BUY, 0⟩]⟩]
      (le_refl 0) (by norm_num) (by decide) (by norm_num) (by decide)
      (by with_unfolding_all rfl)
  · exact backtest_ledger_nonneg.2.1 0 0 ⟨1, 0, []⟩ 1 5 1
      (by with_unfolding_all decide)
  · exact backtest_ledger_nonneg.2.2 0 0 ⟨1, 5, []⟩ 1 5 6 (by decide)

/-- C1 counterexample: with initial cash 2, ftc = 5, ptc = 0 and falling
prices 9, 8, the momentum strategy emits a SELL of 0 units whose cost is
-5; the run completes with a final cash balance of -3 < 0, so cash ≥ 0
does not hold at every step. -/
theorem backtest_cash_goes_negative :
    (runBacktest (momentumStrat 1) 2 5 0 dfFall).map (fun o => o.results.finalBalance) =
      .ok (-3) ∧ ¬ ((0 : ℚ) ≤ -3) := by
  constructor
  · with_unfolding_all rfl
  · norm_num

/-- C2 (amended): with no fixed transaction cost, a proportional cost
between 0 and 1, non-negative prices and non-negative initial cash,
every completed run ends with position = 0: the loop-end position is
non-negative, and when positive it is force-liquidated by a SELL of the
held quantity at the last observed price.  (With ftc > 0 and ptc > 0 the
loop can end with a negative position, which the liquidation branch
skips: see the counterexample.) -/
theorem backtest_terminal_liquidation {strat : Strat} {cash0 ptc : ℚ} {df : DF}
    {out : RunOut}
    (hptc0 : 0 ≤ ptc) (hptc1 : ptc ≤ 1)
    (hp : ∀ o ∈ (strat.computeIndicators df).obs, 0 ≤ o.close_price)
    (hc : 0 ≤ cash0)
    (h : runBacktest strat cash0 0 ptc df = .ok out) :
    out.ledger.position = 0 := by
  obtain ⟨L₁, tr, hloop, hfin⟩ := runBacktest_ok_elim h
  have hrows : ∀ r ∈ (dataPrepared strat df).iterrows, 0 ≤ r.obs.close_price := by
    intro r hr
    have hmem := @mem_iterrows_obs (dataPrepared strat df) r hr
    exact hp r.obs hmem
  have hinv := runLoop_nonneg hptc0 hptc1 hrows hc (le_refl 0) hloop
  obtain ⟨L₂, fnw, hclose, hlast, hc0, hout⟩ := finishRun_ok_elim hfin
  rw [hout]
  exact closeOut_position_zero hinv.2.2 hclose

/-- C2 witness: the momentum strategy over two rising prices with zero
costs completes and the engine holds no position afterwards. -/
theorem backtest_terminal_liquidation_witness :
    (runBacktest (momentumStrat 1) 10 0 0 dfTwo).map (fun o => o.ledger.position) =
      .ok 0 := by
  cases h : runBacktest (momentumStrat 1) 10 0 0 dfTwo with
  | error e =>
    have hok : (runBacktest (momentumStrat 1) 10 0 0 dfTwo).isOk = true := by
      with_unfolding_all rfl
    rw [h] at hok
    exact absurd hok (by simp [Except.isOk, Except.toBool])
  | ok out =>
    show Except.ok out.ledger.position = Except.ok 0
    rw [backtest_terminal_liquidation (le_refl 0) (by norm_num) (by decide)
      (by norm_num) h]

/-- C2 counterexample: with initial cash 2, ftc = 5, ptc = 1 and prices
9, 8, 1/2, 1, the momentum strategy first drives cash negative through
fee-only SELLs, then a BUY of -8 units passes the affordability guard;
the run completes with a final position of -2 ≠ 0 and no liquidation. -/
theorem backtest_ends_with_position :
    (runBacktest (momentumStrat 1) 2 5 1 dfSwing).map (fun o => o.ledger.position) =
      .ok (-2) ∧ ((-2 : ℤ) ≠ 0) ∧ dfSwing.obs ≠ [] := by
  refine ⟨?_, by decide, by decide⟩
  with_unfolding_all rfl

/-- C3 (amended): `run_backtest` does mutate the caller's frame —
`compute_indicators` writes the indicator columns into the input frame
object and the engine adds the Position Size and net_wealth columns —
but it preserves the rows and every column with a different name.
(Stated for the SMA strategy the claim cites.) -/
theorem backtest_mutates_but_preserves_rest {sw lw : ℕ} {cash0 ftc ptc : ℚ}
    {df : DF} {out : RunOut}
    (h : runBacktest (smaStrat sw lw) cash0 ftc ptc df = .ok out) :
    out.data.obs = df.obs ∧
    ∀ n, n ≠ keyShortSMA → n ≠ keyLongSMA → n ≠ keyPositionSize → n ≠ keyNetWealth →
      out.data.col n = df.col n := by
  obtain ⟨L₁, tr, hloop, hfin⟩ := runBacktest_ok_elim h
  obtain ⟨L₂, fnw, hclose, hlast, hc0, hout⟩ := finishRun_ok_elim hfin
  rw [hout]
  refine ⟨rfl, ?_⟩
  intro n h1 h2 h3 h4
  show (((dataPrepared (smaStrat sw lw) df).setCol keyPositionSize
      (tr.map fun L => some (L.position : ℚ))).setCol keyNetWealth
      ((portfolioValues tr (dataPrepared (smaStrat sw lw) df).iterrows).map some)).col n =
    df.col n
  rw [DF.col_setCol_ne _ _ _ _ h4, DF.col_setCol_ne _ _ _ _ h3]
  show (((df.setCol keyShortSMA (rollingMean sw df.closes)).setCol keyLongSMA
      (rollingMean lw df.closes)).setCol keyPositionSize
      (List.replicate ((smaStrat sw lw).computeIndicators df).obs.length (some 0))).col n =
    df.col n
  rw [DF.col_setCol_ne _ _ _ _ h3, DF.col_setCol_ne _ _ _ _ h2,
    DF.col_setCol_ne _ _ _ _ h1]

/-- C3 witness: a concrete SMA run preserves the rows and an unrelated
column name. -/
theorem backtest_mutates_but_preserves_rest_witness :
    ((runBacktest (smaStrat 1 2) 10 0 0 dfTwo).map fun o => o.data.obs) =
      .ok dfTwo.obs ∧
    ((runBacktest (smaStrat 1 2) 10 0 0 dfTwo).map fun o => o.data.col keyMomentum) =
      .ok (dfTwo.col keyMomentum) := by
  cases h : runBacktest (smaStrat 1 2) 10 0 0 dfTwo with
  | error e =>
    have hok : (runBacktest (smaStrat 1 2) 10 0 0 dfTwo).isOk = true := by
      with_unfolding_all rfl
    rw [h] at hok
    exact absurd hok (by simp [Except.isOk, Except.toBool])
  | ok out =>
    have hres := backtest_mutates_but_preserves_rest h
    constructor
    · show Except.ok out.data.obs = Except.ok dfTwo.obs
      rw [hres.1]
    · show Except.ok (out.data.col keyMomentum) = Except.ok (dfTwo.col keyMomentum)
      rw [hres.2 keyMomentum (by decide) (by decide) (by decide) (by decide)]

/-- C3 counterexample: after a completed run the caller's frame is not
the frame it passed in — new columns were added in place — and already
`compute_indicators` alone returns a changed frame object state. -/
theorem backtest_input_frame_changed :
    ((runBacktest (momentumStrat 1) 100 0 0 dfOne).map fun o => decide (o.data = dfOne)) =
      .ok false ∧
    (momentumStrat 1).computeIndicators dfOne ≠ dfOne := by
  constructor
  · with_unfolding_all rfl
  · with_unfolding_all decide

/-- C4: when `optimize_parameters` returns a winning parameter
combination, that combination occurs in the Cartesian-product
enumeration, its returned results are those of its own trial, every
combination enumerated before it scored strictly below its
Performance %, and every combination after it scored at most its
Performance % — so the winner is maximal and, among maximal ones, the
first encountered. -/
theorem optimize_parameters_first_max {trial : List ℚ → Except PyErr Results}
    {grid : List (List ℚ)} {bp : List ℚ} {br : Option Results}
    (h : optimizeParameters trial grid = .ok (some bp, br)) :
    ∃ r l1 l2, br = some r ∧ trial bp = .ok r ∧
      pyProduct grid = l1 ++ bp :: l2 ∧
      (∀ c ∈ l1, ∃ q, trial c = .ok q ∧ q.performancePct < r.performancePct) ∧
      (∀ c ∈ l2, ∃ q, trial c = .ok q ∧ q.performancePct ≤ r.performancePct) := by
  unfold optimizeParameters at h
  rcases optimizeGo_spec h with ⟨houteq, _⟩ | ⟨p, r, l1, l2, ho, htr, _, hsplit, hl1, hl2⟩
  · injection houteq with h1 h2
    cases h1
  · injection ho with h1 h2
    injection h1 with h1
    subst h1
    exact ⟨r, l1, l2, h2, htr, hsplit, hl1, hl2⟩

/-- C4 witness: on the grid with one parameter taking values 1 and 2,
with the trial objective equal to the parameter, the winner is [2]. -/
theorem optimize_parameters_first_max_witness :
    ∃ r l1 l2, (some (⟨0, 0, 2, 0, none, []⟩ : Results) : Option Results) = some r ∧
      trialSum [2] = .ok r ∧
      pyProduct [[1, 2]] = l1 ++ [2] :: l2 ∧
      (∀ c ∈ l1, ∃ q, trialSum c = .ok q ∧ q.performancePct < r.performancePct) ∧
      (∀ c ∈ l2, ∃ q, trialSum c = .ok q ∧ q.performancePct ≤ r.performancePct) :=
  optimize_parameters_first_max (by with_unfolding_all rfl)

/-- C5 (amended): `optimize_parameters` has no exception handling — a
search that returns evaluated every combination of the grid, so a trial
that raises aborts the whole search — and a rolling window larger than
the history does not raise at all: its backtest completes with
all-HOLD signals, zero trades and objective 0, not negative infinity. -/
theorem optimizer_trials_not_isolated :
    (∀ (trial : List ℚ → Except PyErr Results) (grid : List (List ℚ))
        (out : Option (List ℚ) × Option Results),
      optimizeParameters trial grid = .ok out →
      ∀ c ∈ pyProduct grid, ∃ r, trial c = .ok r) ∧
    (∀ (sw lw : ℕ) (df : DF), df.obs ≠ [] → df.obs.length < lw →
      ∃ out, runBacktest (smaStrat sw lw) 10000 0 0 df = .ok out ∧
        out.results.performancePct = 0 ∧ out.results.totalTrades = 0) := by
  constructor
  · intro trial grid out h c hc
    exact optimizeGo_ok_trials h c hc
  · intro sw lw df hne hlen
    have hsig : ∀ r ∈ (dataPrepared (smaStrat sw lw) df).iterrows,
        (smaStrat sw lw).generateSignal r ≠ .BUY ∧
        (smaStrat sw lw).generateSignal r ≠ .SELL := by
      intro r hr
      rw [smaSignals_HOLD hlen r hr]
      exact ⟨by decide, by decide⟩
    obtain ⟨out, hrun, hperf, htr, _⟩ :=
      run_allHold (smaStrat sw lw) 10000 0 0 df hne (by norm_num) hsig
    exact ⟨out, hrun, hperf, htr⟩

/-- C5 witness: a grid whose trials all succeed has all its combinations
evaluated, and a concrete run whose long window 200 exceeds the history
length 2 completes with objective 0 and no trades. -/
theorem optimizer_trials_not_isolated_witness :
    (∃ r, trialSum [1] = .ok r) ∧
    (∃ out, runBacktest (smaStrat 50 200) 10000 0 0 dfTwo = .ok out ∧
      out.results.performancePct = 0 ∧ out.results.totalTrades = 0) := by
  constructor
  · exact optimizer_trials_not_isolated.1 trialSum [[1]]
      (some [1], some ⟨0, 0, 1, 0, none, []⟩) (by with_unfolding_all rfl) [1] (by simp [pyProduct])
  · exact optimizer_trials_not_isolated.2 50 200 dfTwo (by decide) (by decide)

/-- C5 counterexample: the grid with values 1, 2, 3 enumerates three
combinations; the trial for [2] raises, and `optimize_parameters`
propagates the exception and aborts instead of recording negative
infinity and continuing, although the trial for [3] would succeed. -/
theorem optimizer_aborts_on_trial_error :
    pyProduct [[1, 2, 3]] = [[1], [2], [3]] ∧
    trialErr [2] = .error .valueError ∧
    (trialErr [3]).isOk = true ∧
    optimizeParameters trialErr [[1, 2, 3]] = .error .valueError := by
  refine ⟨?_, ?_, ?_, ?_⟩
  · with_unfolding_all rfl
  · with_unfolding_all rfl
  · with_unfolding_all rfl
  · with_unfolding_all rfl

/-- C6 (amended): on an empty input sequence the loop executes no trade
and no liquidation is attempted, but `run_backtest` does not return
normally: reading the final net wealth from the empty series raises
IndexError for each strategy variant. -/
theorem backtest_empty_input_index_error :
    (∀ (sig : Row → PySignal) (ftc ptc : ℚ) (L0 : Ledger),
      runLoop sig ftc ptc [] L0 = .ok (L0, [])) ∧
    (∀ (sw lw : ℕ) (cash0 ftc ptc : ℚ) (cols : List (String × List (Option ℚ))),
      runBacktest (smaStrat sw lw) cash0 ftc ptc ⟨[], cols⟩ = .error .indexError) ∧
    (∀ (lb : ℕ) (cash0 ftc ptc : ℚ) (cols : List (String × List (Option ℚ))),
      runBacktest (momentumStrat lb) cash0 ftc ptc ⟨[], cols⟩ = .error .indexError) ∧
    (∀ (period : ℕ) (ob os cash0 ftc ptc : ℚ) (cols : List (String × List (Option ℚ))),
      runBacktest (rsiStrat period ob os) cash0 ftc ptc ⟨[], cols⟩ = .error .indexError) := by
  refine ⟨?_, ?_, ?_, ?_⟩
  · intro sig ftc ptc L0
    rfl
  · intro sw lw cash0 ftc ptc cols
    rfl
  · intro lb cash0 ftc ptc cols
    rfl
  · intro period ob os cash0 ftc ptc cols
    rfl

/-- C6 counterexample: on the empty frame the run raises IndexError
rather than returning zero trades and the initial cash. -/
theorem backtest_empty_input_raises :
    runBacktest (smaStrat 50 200) 10000 0 0 ⟨[], []⟩ = .error .indexError ∧
    (.error .indexError : Except PyErr RunOut) ≠
      .ok ⟨⟨10000, 10000, 0, 0, none, []⟩, ⟨[], []⟩, ⟨10000, 0, []⟩⟩ := by
  constructor
  · rfl
  · intro hcon
    cases hcon

/-- C7 (amended): a trade attempt with default sizing at price 0 fails
with ZeroDivisionError — from `int(self.cash / price)` — which
propagates to the caller; no code path raises the InvalidPriceError the
spec names, and negative prices are not rejected at all. -/
theorem trade_zero_price_zero_division :
    (∀ (ftc ptc : ℚ) (L : Ledger) (d : ℚ) (act : Act),
      executeTrade ftc ptc L d 0 act none = .error .zeroDivision) ∧
    (∀ cash0 ftc ptc : ℚ,
      runBacktest (momentumStrat 1) cash0 ftc ptc dfZeroPrice = .error .zeroDivision) := by
  constructor
  · intro ftc ptc L d act
    exact executeTrade_price_zero ftc ptc L d act
  · intro cash0 ftc ptc
    with_unfolding_all rfl

/-- C7 counterexample: at price 0 the run fails with ZeroDivisionError,
which is not InvalidPriceError, and at the negative price -1 a BUY
executes with -10 units instead of failing. -/
theorem trade_nonpositive_price_not_invalid_price :
    runBacktest (momentumStrat 1) 10 0 0 dfZeroPrice = .error .zeroDivision ∧
    PyErr.zeroDivision ≠ PyErr.invalidPrice ∧
    executeTrade 0 0 ⟨10, 0, []⟩ 1 (-1) Act.BUY none =
      .ok ⟨0, -10, [⟨1, -1, Act.BUY, -10⟩]⟩ := by
  refine ⟨?_, by decide, ?_⟩
  · with_unfolding_all rfl
  · with_unfolding_all rfl

/-- C8 (amended): on a non-empty, strictly positive equity series,
`compute_max_drawdown` — the minimum of equity / running-max − 1 —
returns a value ≤ 0 which is 0 exactly when the series is
non-decreasing.  (On series with non-positive values the
iff fails: see the counterexample.) -/
theorem max_drawdown_nonpos_iff {vs : List ℚ} (hne : vs ≠ [])
    (hpos : ∀ v ∈ vs, 0 < v) :
    ∃ d, computeMaxDrawdown vs = some d ∧ d ≤ 0 ∧
      (d = 0 ↔ List.Chain' (· ≤ ·) vs) := by
  cases vs with
  | nil => exact absurd rfl hne
  | cons x xs =>
    have hx : 0 < x := hpos x (List.mem_cons_self x xs)
    have hxs : ∀ v ∈ xs, 0 < v := fun v hv => hpos v (List.mem_cons_of_mem x hv)
    have hx0 : x / x - 1 = 0 := by
      rw [div_self (ne_of_gt hx)]
      ring
    have hdd : computeMaxDrawdown (x :: xs) = ((0 : ℚ) :: ddFrom x xs).min? := by
      unfold computeMaxDrawdown
      rw [drawdowns_cons, hx0]
    obtain ⟨d, hd⟩ : ∃ d, ((0 : ℚ) :: ddFrom x xs).min? = some d := by
      cases hm : ((0 : ℚ) :: ddFrom x xs).min? with
      | some d => exact ⟨d, rfl⟩
      | none =>
        rw [List.min?_eq_none_iff] at hm
        cases hm
    obtain ⟨hmem, hle⟩ := rat_min?_eq_some_iff.mp hd
    refine ⟨d, by rw [hdd, hd], hle 0 (List.mem_cons_self 0 _), ?_⟩
    constructor
    · intro hd0
      have hall : ∀ e ∈ ddFrom x xs, 0 ≤ e := by
        intro e he
        rw [← hd0]
        exact hle e (List.mem_cons_of_mem 0 he)
      exact (ddFrom_nonneg_iff hx hxs).mp hall
    · intro hchain
      have hall := (ddFrom_nonneg_iff hx hxs).mpr hchain
      have hge : 0 ≤ d := by
        rcases List.mem_cons.mp hmem with rfl | hmem2
        · exact le_refl 0
        · exact hall d hmem2
      exact le_antisymm (hle 0 (List.mem_cons_self 0 _)) hge

/-- C8 witness: on the rising positive series 1, 2 the maximum drawdown
is 0 and the series is non-decreasing. -/
theorem max_drawdown_nonpos_iff_witness :
    ∃ d, computeMaxDrawdown [1, 2] = some d ∧ d ≤ 0 ∧
      (d = 0 ↔ List.Chain' (· ≤ ·) ([1, 2] : List ℚ)) :=
  max_drawdown_nonpos_iff (by decide) (by decide)

/-- C8 counterexample: the equity series -1, -2 is strictly decreasing,
yet `compute_max_drawdown` returns 0, because dividing by the negative
running maximum flips the inequalities — so "equals 0 iff
non-decreasing" is false as stated. -/
theorem max_drawdown_zero_on_decreasing_series :
    computeMaxDrawdown [-1, -2] = some 0 ∧
    ¬ List.Chain' (· ≤ ·) ([-1, -2] : List ℚ) := by
  constructor
  · with_unfolding_all rfl
  · intro hcon
    have hc : List.Chain (· ≤ ·) (-1 : ℚ) [-2] := hcon
    rcases List.chain_cons.mp hc with ⟨h1, _⟩
    norm_num at h1

/-- C9 (amended): each strategy yields its default signal whenever its
BUY and SELL conditions both fail — HOLD for the SMA, momentum and
mean-reversion variants, but Python None (not HOLD) for the RSI variant
— and the RSI strategy over fewer observations than its period yields
None on every row and completes a run without raising. -/
theorem strategies_default_signal :
    (∀ (sw lw : ℕ) (r : Row), optGT (r.get keyShortSMA) (r.get keyLongSMA) = false →
        optLT (r.get keyShortSMA) (r.get keyLongSMA) = false →
        (smaStrat sw lw).generateSignal r = .HOLD) ∧
    (∀ (lb : ℕ) (r : Row), optGTc (r.get keyMomentum) 0 = false →
        optLTc (r.get keyMomentum) 0 = false →
        (momentumStrat lb).generateSignal r = .HOLD) ∧
    (∀ (t : ℚ) (r : Row), optLTc (r.get keyZScore) (-t) = false →
        optGTc (r.get keyZScore) t = false →
        meanReversionSignal t r = .HOLD) ∧
    (∀ (period : ℕ) (ob os : ℚ) (r : Row), optLTc (r.get keyRSI) os = false →
        optGTc (r.get keyRSI) ob = false →
        (rsiStrat period ob os).generateSignal r = .NONE) ∧
    (∀ (period : ℕ) (ob os cash0 ftc ptc : ℚ) (df : DF),
        df.obs.length < period → df.obs ≠ [] → cash0 ≠ 0 →
        (∀ s ∈ signalsOf (rsiStrat period ob os) df, s = PySignal.NONE) ∧
        ∃ out, runBacktest (rsiStrat period ob os) cash0 ftc ptc df = .ok out) := by
  refine ⟨?_, ?_, ?_, ?_, ?_⟩
  · intro sw lw r h1 h2
    show (if optGT (r.get keyShortSMA) (r.get keyLongSMA) then PySignal.BUY
          else if optLT (r.get keyShortSMA) (r.get keyLongSMA) then PySignal.SELL
          else PySignal.HOLD) = PySignal.HOLD
    rw [h1, h2]
    rfl
  · intro lb r h1 h2
    show (if optGTc (r.get keyMomentum) 0 then PySignal.BUY
          else if optLTc (r.get keyMomentum) 0 then PySignal.SELL
          else PySignal.HOLD) = PySignal.HOLD
    rw [h1, h2]
    rfl
  · intro t r h1 h2
    unfold meanReversionSignal
    rw [h1, h2]
    rfl
  · intro period ob os r h1 h2
    show (if optLTc (r.get keyRSI) os then PySignal.BUY
          else if optGTc (r.get keyRSI) ob then PySignal.SELL
          else PySignal.NONE) = PySignal.NONE
    rw [h1, h2]
    rfl
  · intro period ob os cash0 ftc ptc df hlen hne hc
    constructor
    · intro s hs
      obtain ⟨r, hr, rfl⟩ := List.mem_map.mp hs
      exact rsiSignals_NONE hlen r hr
    · have hsig : ∀ r ∈ (dataPrepared (rsiStrat period ob os) df).iterrows,
          (rsiStrat period ob os).generateSignal r ≠ .BUY ∧
          (rsiStrat period ob os).generateSignal r ≠ .SELL := by
        intro r hr
        rw [rsiSignals_NONE hlen r hr]
        exact ⟨by decide, by decide⟩
      obtain ⟨out, hrun, _⟩ := run_allHold (rsiStrat period ob os) cash0 ftc ptc df hne hc hsig
      exact ⟨out, hrun⟩

/-- C9 witness: concrete rows where no condition fires produce the
default signals, and the RSI(14) strategy over two observations yields
None everywhere and completes. -/
theorem strategies_default_signal_witness :
    (smaStrat 50 200).generateSignal ⟨⟨1, 10⟩, []⟩ = .HOLD ∧
    (momentumStrat 14).generateSignal ⟨⟨1, 10⟩, []⟩ = .HOLD ∧
    meanReversionSignal 2 ⟨⟨1, 10⟩, []⟩ = .HOLD ∧
    (rsiStrat 14 70 30).generateSignal ⟨⟨1, 10⟩, []⟩ = .NONE ∧
    (∀ s ∈ signalsOf (rsiStrat 14 70 30) dfTwo, s = PySignal.NONE) ∧
    (∃ out, runBacktest (rsiStrat 14 70 30) 10 0 0 dfTwo = .ok out) := by
  obtain ⟨h5a, h5b⟩ := strategies_default_signal.2.2.2.2 14 70 30 10 0 0 dfTwo
    (by decide) (by decide) (by norm_num)
  exact ⟨strategies_default_signal.1 50 200 ⟨⟨1, 10⟩, []⟩ rfl rfl,
    strategies_default_signal.2.1 14 ⟨⟨1, 10⟩, []⟩ rfl rfl,
    strategies_default_signal.2.2.1 2 ⟨⟨1, 10⟩, []⟩ rfl rfl,
    strategies_default_signal.2.2.2.1 14 70 30 ⟨⟨1, 10⟩, []⟩ rfl rfl,
    h5a, h5b⟩

/-- C9 counterexample: the RSI(14) strategy over two observations emits
the Python value None for every row, not the string HOLD the claim
names. -/
theorem rsi_yields_none_not_hold :
    signalsOf (rsiStrat 14 70 30) dfTwo = [PySignal.NONE, PySignal.NONE] ∧
    PySignal.NONE ≠ PySignal.HOLD ∧
    dfTwo.obs.length < 14 := by
  refine ⟨?_, by decide, by decide⟩
  with_unfolding_all rfl

/-- C10: with ftc = 0 and ptc = 0 and non-negative prices, every
completed run reports Final Balance = Final Net Wealth: the final
net-wealth sample marks the loop-end position to market at the last
price, and the forced liquidation realises exactly that value with no
cost, while a zero position makes both sides the loop-end cash. -/
theorem final_balance_eq_net_wealth {strat : Strat} {cash0 : ℚ} {df : DF}
    {out : RunOut}
    (hp : ∀ o ∈ (strat.computeIndicators df).obs, 0 ≤ o.close_price)
    (hc : 0 ≤ cash0)
    (h : runBacktest strat cash0 0 0 df = .ok out) :
    out.results.finalBalance = out.results.finalNetWealth := by
  obtain ⟨L₁, tr, hloop, hfin⟩ := runBacktest_ok_elim h
  obtain ⟨L₂, fnw, hclose, hlast, hc0, hout⟩ := finishRun_ok_elim hfin
  have hrows : ∀ r ∈ (dataPrepared strat df).iterrows, 0 ≤ r.obs.close_price := by
    intro r hr
    have hmem := @mem_iterrows_obs (dataPrepared strat df) r hr
    exact hp r.obs hmem
  have hinv := runLoop_nonneg (le_refl 0) (by norm_num) hrows hc (le_refl 0) hloop
  have hrne : (dataPrepared strat df).iterrows ≠ [] := by
    intro hcon
    have hlen := runLoop_length hloop
    rw [hcon] at hlen
    have htr0 : tr = [] := List.eq_nil_of_length_eq_zero (by simpa using hlen)
    rw [htr0, hcon] at hlast
    simp [portfolioValues] at hlast
  obtain ⟨r, hrlast⟩ : ∃ r, (dataPrepared strat df).iterrows.getLast? = some r := by
    cases hx : (dataPrepared strat df).iterrows.getLast? with
    | some r => exact ⟨r, rfl⟩
    | none => exact absurd (List.getLast?_eq_none_iff.mp hx) hrne
  have htrlast : tr.getLast? = some L₁ := runLoop_last hloop hrne
  have hfnw : fnw = L₁.cash + (L₁.position : ℚ) * r.obs.close_price := by
    have hpv := portfolioValues_getLast (runLoop_length hloop) htrlast hrlast
    rw [hpv] at hlast
    injection hlast with hlast
    exact hlast.symm
  have hcash := closeOut_cash_zero_costs hinv.2.2 hrlast hclose
  rw [hout]
  show L₂.cash = fnw
  rw [hcash, hfnw]

/-- C10 witness: a concrete zero-cost momentum run reports equal Final
Balance and Final Net Wealth. -/
theorem final_balance_eq_net_wealth_witness :
    ((runBacktest (momentumStrat 1) 10 0 0 dfTwo).map fun o =>
      decide (o.results.finalBalance = o.results.finalNetWealth)) = .ok true := by
  cases h : runBacktest (momentumStrat 1) 10 0 0 dfTwo with
  | error e =>
    have hok : (runBacktest (momentumStrat 1) 10 0 0 dfTwo).isOk = true := by
      with_unfolding_all rfl
    rw [h] at hok
    exact absurd hok (by simp [Except.isOk, Except.toBool])
  | ok out =>
    have heq := final_balance_eq_net_wealth (by decide) (by norm_num) h
    show Except.ok (decide (out.results.finalBalance = out.results.finalNetWealth)) =
      Except.ok true
    rw [heq]
    simp
